import Mathlib

/-!
# Verification of the software-engineer pipeline core

Shallow embedding of the TypeScript sources of the `software-engineer`
CLI (pipeline orchestrator, agent process adapter, branch classifier,
adaptive step analyzer, branch management stage) together with proofs
of the behavioural properties stated in the specification.

Machine integers in the source are plain JS numbers used as small
naturals/integers; they are modelled as `Nat`/`Int`.  Strings are
modelled as Lean `String`/`List Char` (JS strings are sequences of
UTF-16 code units; none of the verified properties depends on
surrogate behaviour).
-/

namespace SE

/-! ## Agent process adapter: result type and exit-code mapping
    (source: `src/claude.ts`, streaming variant) -/

/-- Result resolved by `runClaude` (source `ClaudeResult`). -/
structure ClaudeResult where
  success : Bool
  output : String
deriving DecidableEq, Repr

/-- What the `close`/`error` handlers of `runClaude` do: either the whole
host program exits with a status, or the promise resolves with a result. -/
inductive CloseOutcome where
  | hostExit (status : Nat)
  | result (r : ClaudeResult)
deriving DecidableEq, Repr

/-- Source constant `EXIT_SUCCESS = 0`. -/
def EXIT_SUCCESS : Int := 0

/-- Source constant `EXIT_INTERRUPTED = 130`. -/
def EXIT_INTERRUPTED : Int := 130

/-- The `close` handler of the streaming `runClaude`.  `exitCode` is the
Node close argument (`null`, modelled `none`, when the child was killed by
a signal).  Source:
`if (exitCode === EXIT_INTERRUPTED || exitCode === 2) process.exit(EXIT_INTERRUPTED);
 else if (exitCode === EXIT_SUCCESS) resolve({success:true, output:''});
 else resolve({success:false, output:''});` -/
def handleClaudeClose (exitCode : Option Int) : CloseOutcome :=
  if exitCode = some EXIT_INTERRUPTED ∨ exitCode = some 2 then
    .hostExit 130
  else if exitCode = some EXIT_SUCCESS then
    .result ⟨true, ""⟩
  else
    .result ⟨false, ""⟩

/-- The `error` (spawn failure) handler of the streaming `runClaude`:
`resolve({ success: false, output: '' })`. -/
def handleClaudeSpawnError : CloseOutcome := .result ⟨false, ""⟩

/-- The dry-run early return of `runClaude`:
`return { success: true, output: '' }`. -/
def runClaudeDryRunResult : ClaudeResult := ⟨true, ""⟩

/-! ## Review stage: no-issues detection
    (source: `src/steps/review.ts`)

The `NO_ISSUES_PATTERNS` regular expressions are embedded as
nondeterministic matchers over `List Char`: a matcher returns the list
of possible remainders after matching a prefix of its input, which for
these backtracking-free alternation/option/plus patterns coincides with
JS regex semantics for `RegExp.test`. -/

/-- JS `\s` character class (ECMAScript WhiteSpace ∪ LineTerminator). -/
def jsWhitespace (c : Char) : Bool :=
  c = ' ' || c = '\t' || c = '\n' || c = '\r' || c = '\x0b' || c = '\x0c' ||
  c = '\u00a0' || c = '\u1680' ||
  ('\u2000' ≤ c && c ≤ '\u200a') ||
  c = '\u2028' || c = '\u2029' || c = '\u202f' || c = '\u205f' ||
  c = '\u3000' || c = '\ufeff'

/-- Nondeterministic prefix matcher: input ↦ possible remainders. -/
abbrev Matcher := List Char → List (List Char)

/-- Case-insensitive literal match (the patterns carry the `i` flag). -/
def matchLitCI : List Char → List Char → Option (List Char)
  | [], cs => some cs
  | _ :: _, [] => none
  | p :: ps, c :: cs => if c.toLower = p.toLower then matchLitCI ps cs else none

/-- Matcher for a case-insensitive literal. -/
def mLit (s : String) : Matcher := fun cs => (matchLitCI s.data cs).toList

/-- Sequencing of two matchers. -/
def mSeq (a b : Matcher) : Matcher := fun cs => (a cs).flatMap b

/-- Alternation `a|b`. -/
def mAlt (a b : Matcher) : Matcher := fun cs => a cs ++ b cs

/-- Option `a?`. -/
def mOpt (a : Matcher) : Matcher := fun cs => cs :: a cs

/-- `\s+`: consume one or more JS whitespace characters. -/
def mSpace1 : Matcher
  | [] => []
  | c :: cs => if jsWhitespace c then cs :: mSpace1 cs else []

/-- `RegExp.test`: the pattern matches starting at some position. -/
def searchTest (m : Matcher) : List Char → Bool
  | [] => !(m []).isEmpty
  | c :: cs => !(m (c :: cs)).isEmpty || searchTest m cs

/-- `/no\s+issues?\s+(found|detected|identified)/i` -/
def patNoIssues : Matcher :=
  mSeq (mLit "no") (mSeq mSpace1 (mSeq (mLit "issue") (mSeq (mOpt (mLit "s"))
    (mSeq mSpace1 (mAlt (mLit "found") (mAlt (mLit "detected") (mLit "identified")))))))

/-- `/code\s+(is\s+)?clean/i` -/
def patCodeClean : Matcher :=
  mSeq (mLit "code") (mSeq mSpace1 (mSeq (mOpt (mSeq (mLit "is") mSpace1)) (mLit "clean")))

/-- `/lgtm/i` -/
def patLgtm : Matcher := mLit "lgtm"

/-- `/looks\s+good(\s+to\s+me)?/i` -/
def patLooksGood : Matcher :=
  mSeq (mLit "looks") (mSeq mSpace1 (mSeq (mLit "good")
    (mOpt (mSeq mSpace1 (mSeq (mLit "to") (mSeq mSpace1 (mLit "me")))))))

/-- `/no\s+(changes|modifications)\s+(needed|required|necessary)/i` -/
def patNoChanges : Matcher :=
  mSeq (mLit "no") (mSeq mSpace1 (mSeq (mAlt (mLit "changes") (mLit "modifications"))
    (mSeq mSpace1 (mAlt (mLit "needed") (mAlt (mLit "required") (mLit "necessary"))))))

/-- `/nothing\s+to\s+(fix|change|improve)/i` -/
def patNothingTo : Matcher :=
  mSeq (mLit "nothing") (mSeq mSpace1 (mSeq (mLit "to") (mSeq mSpace1
    (mAlt (mLit "fix") (mAlt (mLit "change") (mLit "improve"))))))

/-- `/all\s+(checks\s+)?pass(ed)?/i` -/
def patAllPass : Matcher :=
  mSeq (mLit "all") (mSeq mSpace1 (mSeq (mOpt (mSeq (mLit "checks") mSpace1))
    (mSeq (mLit "pass") (mOpt (mLit "ed")))))

/-- `/code\s+quality\s+(is\s+)?(good|excellent|solid)/i` -/
def patCodeQuality : Matcher :=
  mSeq (mLit "code") (mSeq mSpace1 (mSeq (mLit "quality") (mSeq mSpace1
    (mSeq (mOpt (mSeq (mLit "is") mSpace1))
      (mAlt (mLit "good") (mAlt (mLit "excellent") (mLit "solid")))))))

/-- Source constant `NO_ISSUES_PATTERNS`. -/
def NO_ISSUES_PATTERNS : List Matcher :=
  [patNoIssues, patCodeClean, patLgtm, patLooksGood,
   patNoChanges, patNothingTo, patAllPass, patCodeQuality]

/-- `detectNoIssues`: `NO_ISSUES_PATTERNS.some((p) => p.test(output))`. -/
def detectNoIssues (output : String) : Bool :=
  NO_ISSUES_PATTERNS.any fun m => searchTest m output.data

/-! ## Pipeline orchestrator: the review loop
    (source: `src/pipeline.ts`, `runPipeline`, the `for` loop over
    `1..config.reviewIterations` calling `stepReview`) -/

/-- Result of one review stage call (source `ReviewResult`). -/
structure ReviewResult where
  success : Bool
  noIssuesFound : Bool
deriving DecidableEq, Repr

/-- How the review loop ends: `failed` models the `process.exit(1)` taken
when a review iteration reports `success = false`; `completed` models
falling through to the next pipeline stage (either by exhausting the
iterations or by the early `break` on `noIssuesFound`). -/
inductive ReviewLoopExit where
  | failed
  | completed
deriving DecidableEq, Repr

/-- The body of `for (let i = 1; i <= N; i++) { ... }` in `runPipeline`:
`results i` is the `ReviewResult` returned by `stepReview(i, config)`.
Returns the list of iteration indices for which `stepReview` was called,
together with how the loop ended.  `fuel` is the number of remaining
iterations `N - i + 1`. -/
def reviewLoopAux (results : Nat → ReviewResult) (i : Nat) : Nat → List Nat × ReviewLoopExit
  | 0 => ([], .completed)
  | fuel + 1 =>
    let r := results i
    if !r.success then ([i], .failed)
    else if r.noIssuesFound then ([i], .completed)
    else
      let rest := reviewLoopAux results (i + 1) fuel
      (i :: rest.1, rest.2)

/-- The review loop of `runPipeline`, run for configured iteration count
`n`, recording which iterations called `stepReview`. -/
def reviewLoop (results : Nat → ReviewResult) (n : Nat) : List Nat × ReviewLoopExit :=
  reviewLoopAux results 1 n

lemma reviewLoopAux_all_issues (results : Nat → ReviewResult) :
    ∀ fuel i, (∀ k, i ≤ k → k < i + fuel → results k = ⟨true, false⟩) →
      reviewLoopAux results i fuel = (List.range' i fuel, .completed) := by
  intro fuel
  induction fuel with
  | zero => intro i _; rfl
  | succ f ih =>
    intro i h
    have hi : results i = ⟨true, false⟩ := h i (Nat.le_refl i) (by omega)
    have hrest := ih (i + 1) (fun k hk1 hk2 => h k (by omega) (by omega))
    simp [reviewLoopAux, hi, hrest, List.range'_succ]

lemma reviewLoopAux_early_exit (results : Nat → ReviewResult) :
    ∀ fuel i j, i ≤ j → j < i + fuel →
      (∀ k, i ≤ k → k < j → results k = ⟨true, false⟩) →
      results j = ⟨true, true⟩ →
      reviewLoopAux results i fuel = (List.range' i (j - i + 1), .completed) := by
  intro fuel
  induction fuel with
  | zero => intro i j _ h2 _ _; omega
  | succ f ih =>
    intro i j hij hlt hall hj
    rcases Nat.eq_or_lt_of_le hij with heq | hltij
    · subst heq
      simp [reviewLoopAux, hj, List.range'_succ]
    · have hi : results i = ⟨true, false⟩ := hall i (Nat.le_refl i) hltij
      have hrest := ih (i + 1) j hltij (by omega)
        (fun k hk1 hk2 => hall k (by omega) hk2) hj
      have harith : j - i + 1 = (j - (i + 1) + 1) + 1 := by omega
      simp [reviewLoopAux, hi, hrest, harith, List.range'_succ]

/-- C1: for every configured review-iteration count N in [1,3], if every
iteration returns success with `noIssuesFound = false`, the review loop
of `runPipeline` calls `stepReview` exactly for iterations 1..N; and if
the iterations before some iteration j all report issues while iteration
j returns `noIssuesFound = true`, the loop runs exactly iterations 1..j
and performs no further iterations. -/
theorem review_loop_iteration_count (results : Nat → ReviewResult) (n : Nat)
    (h1 : 1 ≤ n) (h3 : n ≤ 3) :
    ((∀ i, 1 ≤ i → i ≤ n → results i = ⟨true, false⟩) →
      reviewLoop results n = (List.range' 1 n, .completed)) ∧
    (∀ j, 1 ≤ j → j ≤ n →
      (∀ i, 1 ≤ i → i < j → results i = ⟨true, false⟩) →
      results j = ⟨true, true⟩ →
      reviewLoop results n = (List.range' 1 j, .completed)) := by
  constructor
  · intro hall
    exact reviewLoopAux_all_issues results n 1 (fun k hk1 hk2 => hall k hk1 (by omega))
  · intro j hj1 hjn hbefore hj
    have := reviewLoopAux_early_exit results n 1 j hj1 (by omega) hbefore hj
    have harith : j - 1 + 1 = j := by omega
    rwa [harith] at this

theorem review_loop_iteration_count_witness :
    reviewLoop (fun _ => ⟨true, false⟩) 2 = (List.range' 1 2, .completed) ∧
    reviewLoop (fun i => if i = 1 then ⟨true, true⟩ else ⟨true, false⟩) 3 =
      (List.range' 1 1, .completed) := by
  constructor
  · exact (review_loop_iteration_count (fun _ => ⟨true, false⟩) 2
      (by norm_num) (by norm_num)).1 (fun _ _ _ => rfl)
  · exact (review_loop_iteration_count _ 3 (by norm_num) (by norm_num)).2
      1 (by norm_num) (by norm_num) (fun i h1 h2 => by omega) (by norm_num)

/-- The tail of `stepReview`: given the `ClaudeResult` of `runClaude`,
`noIssuesFound = result.success && detectNoIssues(result.output)`. -/
def stepReviewResult (r : ClaudeResult) : ReviewResult :=
  ⟨r.success, r.success && detectNoIssues r.output⟩

/-- C3 counterexample: exit code 2 is a non-zero exit code different from
the agreed interrupt code `EXIT_INTERRUPTED = 130`, yet the adapter does
not resolve with `success = false` — it terminates the host program with
status 130. -/
theorem claude_exit_two_counterexample :
    (2 : Int) ≠ 0 ∧ (2 : Int) ≠ EXIT_INTERRUPTED ∧
    handleClaudeClose (some 2) = .hostExit 130 ∧
    handleClaudeClose (some 2) ≠ .result ⟨false, ""⟩ := by
  refine ⟨by decide, by decide, by decide, by decide⟩

/-- C3 (amended): exit code 0 resolves `success = true`; exit code 130
(the agreed interrupt code) *and also exit code 2* terminate the host
program with the interrupted status 130; every other exit code — and a
`null` code from a signal-killed child — resolves `success = false`; a
spawn error (external binary not found) also resolves `success = false`,
never as an interrupt. -/
theorem claude_exit_code_mapping (c : Int)
    (h0 : c ≠ 0) (h130 : c ≠ 130) (h2 : c ≠ 2) :
    handleClaudeClose (some 0) = .result ⟨true, ""⟩ ∧
    handleClaudeClose (some 130) = .hostExit 130 ∧
    handleClaudeClose (some 2) = .hostExit 130 ∧
    handleClaudeClose (some c) = .result ⟨false, ""⟩ ∧
    handleClaudeClose none = .result ⟨false, ""⟩ ∧
    handleClaudeSpawnError = .result ⟨false, ""⟩ := by
  refine ⟨by decide, by decide, by decide, ?_, by decide, by decide⟩
  simp [handleClaudeClose, EXIT_INTERRUPTED, EXIT_SUCCESS, h0, h130, h2]

theorem claude_exit_code_mapping_witness :
    (5 : Int) ≠ 0 ∧
    handleClaudeClose (some 5) = .result ⟨false, ""⟩ := by
  exact ⟨by decide, (claude_exit_code_mapping 5 (by decide) (by decide) (by decide)).2.2.2.1⟩

/-- C10: every resolution of the streaming `runClaude` (dry-run early
return, exit-code 0 success, non-interrupt failure, spawn error) carries
`output = ""`; consequently `stepReview`'s `noIssuesFound`, computed as
`result.success && detectNoIssues(result.output)`, is `false` for every
review invocation made through this adapter. -/
theorem claude_output_always_empty (ec : Option Int) (r r' : ClaudeResult)
    (hres : handleClaudeClose ec = .result r)
    (herr : handleClaudeSpawnError = .result r') :
    runClaudeDryRunResult.output = "" ∧
    r.output = "" ∧ r'.output = "" ∧
    (stepReviewResult runClaudeDryRunResult).noIssuesFound = false ∧
    (stepReviewResult r).noIssuesFound = false ∧
    (stepReviewResult r').noIssuesFound = false := by
  have hdet : detectNoIssues "" = false := by decide
  have hr : r.output = "" := by
    unfold handleClaudeClose at hres
    split at hres
    · exact absurd hres (by simp)
    · split at hres <;> (injection hres with h; rw [← h])
  have hr' : r'.output = "" := by
    unfold handleClaudeSpawnError at herr
    injection herr with h
    rw [← h]
  refine ⟨rfl, hr, hr', ?_, ?_, ?_⟩
  · decide
  · simp [stepReviewResult, hr, hdet]
  · simp [stepReviewResult, hr', hdet]

theorem claude_output_always_empty_witness :
    (ClaudeResult.mk true "").output = "" ∧
    (stepReviewResult ⟨true, ""⟩).noIssuesFound = false := by
  have h := claude_output_always_empty (some 0) ⟨true, ""⟩ ⟨false, ""⟩
    (by decide) (by decide)
  exact ⟨h.2.1, h.2.2.2.2.1⟩

/-! ## Agent process adapter: stream-event rendering
    (source: `src/claude.ts`, `formatToolCall` / `processStreamEvent`)

The source keeps `lastPrintedMessage : string`, reset to `''` by the
init banner and by every printed text block, and otherwise holding the
chalk-rendered tool summary last printed.  Chalk rendering is injective
on (color, text) pairs and never yields `''`, so the string state is
modelled as `Option ToolLine` with `none` standing for `''`. -/

/-- The `input` payload of a `tool_use` content item (`unknown` in the
source).  `obj` is a JS object with the three fields `formatToolCall`
inspects via `'field' in input`; `notObj` is any non-object or nullish
value (all guards fail on it). -/
inductive JsInput where
  | obj (file_path description pattern : Option String)
  | notObj
deriving DecidableEq, Repr

/-- A rendered one-line tool summary: chalk color plus visible text. -/
structure ToolLine where
  color : String
  text : String
deriving DecidableEq, Repr

/-- `toolColors[name] || 'white'`. -/
def toolColor (name : String) : String :=
  if name = "Read" then "cyan"
  else if name = "Write" then "green"
  else if name = "Edit" then "yellow"
  else if name = "Bash" then "magenta"
  else if name = "Grep" then "blue"
  else if name = "Glob" then "blue"
  else "white"

/-- `formatToolCall(name, input)` from `src/claude.ts`. -/
def formatToolCall (name : String) (input : JsInput) : ToolLine :=
  let color := toolColor name
  let dflt : ToolLine := ⟨color, "🔧 " ++ name⟩
  match input with
  | .notObj => dflt
  | .obj fp ds pt =>
    if name = "Read" then
      match fp with | some p => ⟨color, "📖 Reading: " ++ p⟩ | none => dflt
    else if name = "Write" then
      match fp with | some p => ⟨color, "✍️  Writing: " ++ p⟩ | none => dflt
    else if name = "Edit" then
      match fp with | some p => ⟨color, "✏️  Editing: " ++ p⟩ | none => dflt
    else if name = "Bash" then
      match ds with | some d => ⟨color, "⚡ Running: " ++ d⟩ | none => dflt
    else if name = "Grep" then
      match pt with | some p => ⟨color, "🔍 Searching: " ++ p⟩ | none => dflt
    else if name = "Glob" then
      match pt with | some p => ⟨color, "📁 Finding: " ++ p⟩ | none => dflt
    else dflt

/-- One item of an assistant event's `message.content` array.  A missing
`text`/`name` field behaves exactly like the empty string (both are
falsy in the source's truthiness guards), so it is modelled as `""`. -/
inductive ContentItem where
  | text (s : String)
  | toolUse (name : String) (input : JsInput)
  | otherContent
deriving DecidableEq, Repr

/-- A parsed stream event, classified the way `processStreamEvent` does:
`system`/`init`, an assistant message carrying content items, or
anything else (ignored). -/
inductive StreamEvent where
  | systemInit
  | assistant (content : List ContentItem)
  | otherEvent
deriving DecidableEq, Repr

/-- One line printed to the console by the adapter. -/
inductive OutLine where
  | rule
  | banner
  | text (s : String)
  | tool (l : ToolLine)
deriving DecidableEq, Repr

/-- Printing state of the adapter: the dedup memory plus everything
printed so far. -/
structure PrinterState where
  lastPrintedMessage : Option ToolLine
  lines : List OutLine
deriving DecidableEq, Repr

/-- The per-content-item body of `processStreamEvent`'s assistant branch. -/
def processContentItem (st : PrinterState) : ContentItem → PrinterState
  | .text s =>
    if s ≠ "" then ⟨none, st.lines ++ [.text s]⟩ else st
  | .toolUse name input =>
    if name ≠ "" then
      let message := formatToolCall name input
      if st.lastPrintedMessage = some message then st
      else ⟨some message, st.lines ++ [.tool message]⟩
    else st
  | .otherContent => st

/-- `processStreamEvent` on an already-parsed event. -/
def processStreamEvent (st : PrinterState) : StreamEvent → PrinterState
  | .systemInit => ⟨none, st.lines ++ [.rule, .banner, .rule]⟩
  | .assistant content => content.foldl processContentItem st
  | .otherEvent => st

/-- Processing a sequence of parsed events. -/
def processStreamEvents (st : PrinterState) (es : List StreamEvent) : PrinterState :=
  es.foldl processStreamEvent st

/-- Module-level initial state: `lastPrintedMessage = ''`, nothing printed. -/
def initialPrinterState : PrinterState := ⟨none, []⟩

/-- C4: two consecutive well-formed `tool_use` events with identical
formatted summaries print the summary exactly once; with a textual
response between them both summaries print (the text resets the dedup
memory); and textual responses always print, from any state. -/
theorem tool_call_dedup (n1 n2 : String) (i1 i2 : JsInput) (s : String)
    (hn1 : n1 ≠ "") (hn2 : n2 ≠ "") (hs : s ≠ "")
    (heq : formatToolCall n1 i1 = formatToolCall n2 i2) :
    (processStreamEvents initialPrinterState
       [.assistant [.toolUse n1 i1], .assistant [.toolUse n2 i2]]).lines
      = [.tool (formatToolCall n1 i1)] ∧
    (processStreamEvents initialPrinterState
       [.assistant [.toolUse n1 i1], .assistant [.text s],
        .assistant [.toolUse n2 i2]]).lines
      = [.tool (formatToolCall n1 i1), .text s, .tool (formatToolCall n2 i2)] ∧
    (∀ st : PrinterState,
      (processStreamEvent st (.assistant [.text s])).lines = st.lines ++ [.text s]) := by
  refine ⟨?_, ?_, ?_⟩
  · simp [processStreamEvents, processStreamEvent, processContentItem,
      initialPrinterState, hn1, hn2, heq]
  · simp [processStreamEvents, processStreamEvent, processContentItem,
      initialPrinterState, hn1, hn2, hs, heq]
  · intro st
    simp [processStreamEvent, processContentItem, hs]

theorem tool_call_dedup_witness :
    (processStreamEvents initialPrinterState
       [.assistant [.toolUse "Read" (.obj (some "a.txt") none none)],
        .assistant [.toolUse "Read" (.obj (some "a.txt") none none)]]).lines
      = [.tool (formatToolCall "Read" (.obj (some "a.txt") none none))] ∧
    (processStreamEvents initialPrinterState
       [.assistant [.toolUse "Read" (.obj (some "a.txt") none none)],
        .assistant [.text "ok"],
        .assistant [.toolUse "Read" (.obj (some "a.txt") none none)]]).lines
      = [.tool (formatToolCall "Read" (.obj (some "a.txt") none none)), .text "ok",
         .tool (formatToolCall "Read" (.obj (some "a.txt") none none))] := by
  have h := tool_call_dedup "Read" "Read"
    (.obj (some "a.txt") none none) (.obj (some "a.txt") none none) "ok"
    (by decide) (by decide) (by decide) rfl
  exact ⟨h.1, h.2.1⟩

/-! ## Agent process adapter: chunked stdout buffering
    (source: `src/claude.ts`, the `child.stdout.on('data', ...)` handler
    and the trailing-buffer flush in the `close` handler)

The stream text is modelled as `List Char`; `data.toString().split('\n')`
on each chunk is `splitNl`.  The JSON decoding of one complete line
(`JSON.parse` plus event classification) is the `decode` parameter: the
buffering behaviour is proved for every decoder. -/

/-- Full state of one `runClaude` stdout stream: the partial-line buffer,
the lines handed to `processStreamEvent` so far, and the printer state. -/
structure StreamState where
  outputBuffer : List Char
  processed : List (List Char)
  printer : PrinterState
deriving DecidableEq, Repr

/-- `if (line.trim()) { processStreamEvent(line); }` for one complete
line: a line that is all JS whitespace is skipped; otherwise it is handed
to `processStreamEvent`, which silently ignores lines its decoder rejects. -/
def handleLine (decode : List Char → Option StreamEvent)
    (st : StreamState) (line : List Char) : StreamState :=
  if line.all jsWhitespace then st
  else
    { st with
      processed := st.processed ++ [line],
      printer := match decode line with
                 | some e => processStreamEvent st.printer e
                 | none => st.printer }

/-- `chunk.split('\n')`: the (always nonempty) list of segments between
newline characters. -/
def splitNl : List Char → List (List Char)
  | [] => [[]]
  | c :: cs =>
    if c = '\n' then [] :: splitNl cs
    else
      match splitNl cs with
      | [] => [[c]]
      | l :: ls => (c :: l) :: ls

/-- The loop body of the stdout data handler: every segment except the
last is completed with the pending buffer and processed; the last
segment is buffered as a possibly-incomplete line. -/
def feedLines (decode : List Char → Option StreamEvent) :
    StreamState → List (List Char) → StreamState
  | st, [] => st
  | st, [l] => { st with outputBuffer := st.outputBuffer ++ l }
  | st, l :: l' :: ls =>
    let line := st.outputBuffer ++ l
    let st1 := handleLine decode { st with outputBuffer := [] } line
    feedLines decode st1 (l' :: ls)

/-- The `data` handler applied to one chunk. -/
def onStdoutData (decode : List Char → Option StreamEvent)
    (st : StreamState) (chunk : List Char) : StreamState :=
  feedLines decode st (splitNl chunk)

/-- The flush in the `close` handler:
`if (outputBuffer.trim()) { processStreamEvent(outputBuffer); }`. -/
def flushStream (decode : List Char → Option StreamEvent)
    (st : StreamState) : StreamState :=
  handleLine decode st st.outputBuffer

/-- Stream state at spawn: empty buffer, nothing processed or printed. -/
def initialStreamState : StreamState := ⟨[], [], initialPrinterState⟩

lemma onStdoutData_nil (decode : List Char → Option StreamEvent)
    (st : StreamState) : onStdoutData decode st [] = st := by
  simp [onStdoutData, splitNl, feedLines]

lemma splitNl_ne_nil (cs : List Char) : splitNl cs ≠ [] := by
  induction cs with
  | nil => simp [splitNl]
  | cons d ds ih =>
    simp only [splitNl]
    split
    · simp
    · split <;> simp

lemma feedLines_single (decode : List Char → Option StreamEvent)
    (st : StreamState) (l : List Char) :
    feedLines decode st [l] = { st with outputBuffer := st.outputBuffer ++ l } :=
  rfl

lemma feedLines_cons_cons (decode : List Char → Option StreamEvent)
    (st : StreamState) (l l' : List Char) (ls : List (List Char)) :
    feedLines decode st (l :: l' :: ls) =
      feedLines decode
        (handleLine decode { st with outputBuffer := [] } (st.outputBuffer ++ l))
        (l' :: ls) :=
  rfl

lemma onStdoutData_cons (decode : List Char → Option StreamEvent)
    (st : StreamState) (c : Char) (cs : List Char) :
    onStdoutData decode st (c :: cs) =
      if c = '\n' then
        onStdoutData decode
          (handleLine decode { st with outputBuffer := [] } st.outputBuffer) cs
      else
        onStdoutData decode { st with outputBuffer := st.outputBuffer ++ [c] } cs := by
  rcases h : splitNl cs with _ | ⟨l, ls⟩
  · exact absurd h (splitNl_ne_nil cs)
  · by_cases hc : c = '\n'
    · subst hc
      simp only [onStdoutData, splitNl, if_pos rfl, h, if_true]
      simp only [feedLines_cons_cons, List.append_nil]
    · simp only [onStdoutData, splitNl, if_neg hc, h]
      cases ls with
      | nil =>
        simp only [feedLines_single, List.append_assoc, List.singleton_append]
      | cons l' ls' =>
        simp only [feedLines_cons_cons, List.append_assoc, List.singleton_append]

lemma onStdoutData_append (decode : List Char → Option StreamEvent)
    (st : StreamState) (a b : List Char) :
    onStdoutData decode (onStdoutData decode st a) b =
      onStdoutData decode st (a ++ b) := by
  induction a generalizing st with
  | nil => rw [onStdoutData_nil]; rfl
  | cons c cs ih =>
    rw [List.cons_append, onStdoutData_cons, onStdoutData_cons]
    by_cases hc : c = '\n'
    · simp only [if_pos hc]
      exact ih _
    · simp only [if_neg hc]
      exact ih _

/-- The text-level half of the buffering argument: for every decoder,
every stream *text* and every split position of the text, feeding the
two fragments as separate chunks and then flushing at end of stream
yields exactly the same state — same processed-line sequence, same
printed output, same pending buffer — as feeding the text as one chunk. -/
lemma stream_chunk_split_invariance (decode : List Char → Option StreamEvent)
    (s : List Char) (i : Nat) :
    flushStream decode
      (onStdoutData decode (onStdoutData decode initialStreamState (s.take i)) (s.drop i))
      = flushStream decode (onStdoutData decode initialStreamState s) := by
  rw [onStdoutData_append, List.take_append_drop]

/-! ### The byte level: per-chunk `Buffer.toString()`

The `data` handler receives a raw `Buffer` and calls `data.toString()`
on each chunk before splitting on newlines.  Node's stateless per-chunk
UTF-8 decode substitutes U+FFFD for every maximal invalid subpart, so a
multi-byte character split across two chunks is mangled — the byte-level
model makes that visible. -/

/-- U+FFFD REPLACEMENT CHARACTER. -/
def replacementChar : Char := '\ufffd'

/-- Modelled from Node `Buffer.toString('utf8')` (the external decode at
the handler's boundary): the WHATWG UTF-8 decoder, emitting U+FFFD for
each maximal invalid subpart — in particular for a truncated sequence at
the end of a chunk and for an orphan continuation byte at the start of
one. -/
def utf8Decode : List Nat → List Char
  | [] => []
  | b :: bs =>
    if b ≤ 0x7F then Char.ofNat b :: utf8Decode bs
    else if 0xC2 ≤ b && b ≤ 0xDF then
      match bs with
      | [] => [replacementChar]
      | b2 :: rest =>
        if 0x80 ≤ b2 && b2 ≤ 0xBF then
          Char.ofNat ((b % 0x20) * 0x40 + (b2 % 0x40)) :: utf8Decode rest
        else replacementChar :: utf8Decode (b2 :: rest)
    else if 0xE0 ≤ b && b ≤ 0xEF then
      let lo := if b = 0xE0 then 0xA0 else 0x80
      let hi := if b = 0xED then 0x9F else 0xBF
      match bs with
      | [] => [replacementChar]
      | b2 :: rest2 =>
        if lo ≤ b2 && b2 ≤ hi then
          match rest2 with
          | [] => [replacementChar]
          | b3 :: rest3 =>
            if 0x80 ≤ b3 && b3 ≤ 0xBF then
              Char.ofNat ((b % 0x10) * 0x1000 + (b2 % 0x40) * 0x40 + (b3 % 0x40)) ::
                utf8Decode rest3
            else replacementChar :: utf8Decode (b3 :: rest3)
        else replacementChar :: utf8Decode (b2 :: rest2)
    else if 0xF0 ≤ b && b ≤ 0xF4 then
      let lo := if b = 0xF0 then 0x90 else 0x80
      let hi := if b = 0xF4 then 0x8F else 0xBF
      match bs with
      | [] => [replacementChar]
      | b2 :: rest2 =>
        if lo ≤ b2 && b2 ≤ hi then
          match rest2 with
          | [] => [replacementChar]
          | b3 :: rest3 =>
            if 0x80 ≤ b3 && b3 ≤ 0xBF then
              match rest3 with
              | [] => [replacementChar]
              | b4 :: rest4 =>
                if 0x80 ≤ b4 && b4 ≤ 0xBF then
                  Char.ofNat ((b % 8) * 0x40000 + (b2 % 0x40) * 0x1000 +
                      (b3 % 0x40) * 0x40 + (b4 % 0x40)) :: utf8Decode rest4
                else replacementChar :: utf8Decode (b4 :: rest4)
            else replacementChar :: utf8Decode (b3 :: rest3)
        else replacementChar :: utf8Decode (b2 :: rest2)
    else replacementChar :: utf8Decode bs

/-- The `data` handler on the raw `Buffer` chunk:
`data.toString()` first, then the newline splitting and buffering. -/
def onStdoutBytes (decode : List Char → Option StreamEvent)
    (st : StreamState) (chunk : List Nat) : StreamState :=
  onStdoutData decode st (utf8Decode chunk)

/-- UTF-8 serialization of a string (used to build concrete stream
inputs; inverse of `utf8Decode` on well-formed text). -/
def utf8Bytes (s : String) : List Nat :=
  s.data.flatMap fun c =>
    let n := c.toNat
    if n ≤ 0x7F then [n]
    else if n ≤ 0x7FF then [0xC0 + n / 0x40, 0x80 + n % 0x40]
    else if n ≤ 0xFFFF then [0xE0 + n / 0x1000, 0x80 + n / 0x40 % 0x40, 0x80 + n % 0x40]
    else [0xF0 + n / 0x40000, 0x80 + n / 0x1000 % 0x40, 0x80 + n / 0x40 % 0x40,
          0x80 + n % 0x40]

/-- A stand-in decoder that turns every processed line into a printed
text event, so the printed output displays exactly the lines the
handler processed. -/
def echoDecoder (l : List Char) : Option StreamEvent :=
  some (.assistant [.text ⟨l⟩])

/-- A well-formed serialized assistant event whose text contains the
two-byte character `é` (U+00E9, bytes C3 A9). -/
def demoEventLine : String :=
  "\x7b\"type\":\"assistant\",\"message\":\x7b\"content\":[\x7b\"type\":\"text\",\"text\":\"café\"\x7d]\x7d\x7d"

/-- The newline-terminated byte serialization of `demoEventLine`. -/
def demoEventBytes : List Nat := utf8Bytes demoEventLine ++ [10]

/-- C5 counterexample: splitting the bytes of a well-formed
newline-terminated serialized event at byte boundary 69 — inside the
two-byte character `é` — and feeding the fragments as two chunks does
*not* produce the same processed-line sequence and printed output as
feeding the whole serialization as one chunk: the per-chunk
`Buffer.toString()` turns the dangling lead byte and the orphan
continuation byte into two U+FFFD characters. -/
theorem stream_byte_split_counterexample :
    utf8Decode demoEventBytes = demoEventLine.data ++ ['\n'] ∧
    demoEventBytes.getLast? = some 10 ∧
    demoEventBytes.take 69 ≠ [] ∧ demoEventBytes.drop 69 ≠ [] ∧
    (flushStream echoDecoder
        (onStdoutBytes echoDecoder
          (onStdoutBytes echoDecoder initialStreamState (demoEventBytes.take 69))
          (demoEventBytes.drop 69))).processed ≠
      (flushStream echoDecoder
        (onStdoutBytes echoDecoder initialStreamState demoEventBytes)).processed ∧
    (flushStream echoDecoder
        (onStdoutBytes echoDecoder
          (onStdoutBytes echoDecoder initialStreamState (demoEventBytes.take 69))
          (demoEventBytes.drop 69))).printer.lines ≠
      (flushStream echoDecoder
        (onStdoutBytes echoDecoder initialStreamState demoEventBytes)).printer.lines := by
  refine ⟨by decide, by decide, by decide, by decide, by decide, by decide⟩

/-- C5 (amended): for every decoder, every byte stream and every split
position that falls on a UTF-8 character boundary — stated as: decoding
the fragments separately agrees with decoding the whole — feeding the
two fragments as separate chunks followed by the end-of-stream flush
produces exactly the same state (same processed-line sequence, same
printed output, same pending buffer) as feeding the whole serialization
as a single chunk.  Splits inside a multi-byte character are excluded:
there the per-chunk `Buffer.toString()` mangles the line into U+FFFD
replacement characters and the outputs genuinely differ. -/
theorem stream_byte_split_boundary_invariance
    (decode : List Char → Option StreamEvent) (bytes : List Nat) (i : Nat)
    (h : utf8Decode (bytes.take i) ++ utf8Decode (bytes.drop i) = utf8Decode bytes) :
    flushStream decode
      (onStdoutBytes decode
        (onStdoutBytes decode initialStreamState (bytes.take i)) (bytes.drop i))
      = flushStream decode (onStdoutBytes decode initialStreamState bytes) := by
  unfold onStdoutBytes
  rw [onStdoutData_append, h]

theorem stream_byte_split_boundary_invariance_witness :
    utf8Decode (demoEventBytes.take 5) ++ utf8Decode (demoEventBytes.drop 5) =
      utf8Decode demoEventBytes ∧
    flushStream echoDecoder
      (onStdoutBytes echoDecoder
        (onStdoutBytes echoDecoder initialStreamState (demoEventBytes.take 5))
        (demoEventBytes.drop 5))
      = flushStream echoDecoder (onStdoutBytes echoDecoder initialStreamState
          demoEventBytes) :=
  ⟨by decide,
   stream_byte_split_boundary_invariance echoDecoder demoEventBytes 5 (by decide)⟩

/-! ## Branch classifier: description sanitisation and response parsing
    (source: `src/utils/branchAnalyzer.ts`)

The label-anchored regex searches (`line.match(/LABEL:\s*(...)/i)`) are
embedded as left-to-right scans: at each position the label must match
case-insensitively, `\s*` consumes greedily, and the alternatives are
tried in order.  Since no alternative begins with a whitespace character,
greedy `\s*` followed by the alternation never needs backtracking; the
`(.+)` captures do backtrack into `\s*` and are modelled accordingly. -/

/-- Source constant `MAX_DESCRIPTION_LENGTH = 40`. -/
def MAX_DESCRIPTION_LENGTH : Nat := 40

/-- JS `String.prototype.trim`: strip leading and trailing `\s`. -/
def jsTrim (cs : List Char) : List Char :=
  ((cs.dropWhile jsWhitespace).reverse.dropWhile jsWhitespace).reverse

/-- Character-wise model of `String.prototype.toLowerCase`; ASCII-faithful
(the verified invariants do not depend on the mapping of non-ASCII
letters, which the sanitiser removes in any case). -/
def jsToLower (c : Char) : Char := c.toLower

/-- The character class kept by `replace(/[^a-z0-9\s-]/g, '')`. -/
def sanitizeAllowed (c : Char) : Bool :=
  ('a' ≤ c && c ≤ 'z') || ('0' ≤ c && c ≤ '9') || jsWhitespace c || c = '-'

lemma length_dropWhile_le' {α : Type} (p : α → Bool) (l : List α) :
    (l.dropWhile p).length ≤ l.length := by
  induction l with
  | nil => simp [List.dropWhile]
  | cons a l ih =>
    simp only [List.dropWhile]
    split
    · exact Nat.le_succ_of_le ih
    · simp

/-- `replace(/\s+/g, '-')`: every maximal whitespace run becomes one
`-`.  `inRun` records whether the previous character belonged to a
whitespace run already replaced. -/
def collapseWsAux (inRun : Bool) : List Char → List Char
  | [] => []
  | c :: cs =>
    if jsWhitespace c then
      if inRun then collapseWsAux true cs
      else '-' :: collapseWsAux true cs
    else c :: collapseWsAux false cs

/-- `replace(/\s+/g, '-')` on a whole string. -/
def collapseWs (l : List Char) : List Char := collapseWsAux false l

/-- `sanitizeDescription` from `src/utils/branchAnalyzer.ts`:
trim, lowercase, drop disallowed characters, collapse whitespace runs to
hyphens, truncate to `MAX_DESCRIPTION_LENGTH`. -/
def sanitizeDescription (input : String) : String :=
  ⟨(collapseWs (((jsTrim input.data).map jsToLower).filter sanitizeAllowed)).take
    MAX_DESCRIPTION_LENGTH⟩

/-- Case-insensitive prefix test (ASCII folding, as the `i` flag on these
ASCII-only patterns). -/
def isPrefixCI : List Char → List Char → Bool
  | [], _ => true
  | _ :: _, [] => false
  | p :: ps, c :: cs => (c.toLower = p.toLower) && isPrefixCI ps cs

/-- Whether `label` occurs case-insensitively anywhere in `cs`. -/
def containsCI (label : List Char) : List Char → Bool
  | [] => isPrefixCI label []
  | c :: cs => isPrefixCI label (c :: cs) || containsCI label cs

/-- At one position: after the label, consume `\s*` greedily and try the
alternatives in order.  Returns the canonical (lowercase) alternative;
the source lowercases the capture, which for these all-letter ASCII
alternatives yields exactly the canonical spelling. -/
def altAt (label : List Char) (alts : List String) (cs : List Char) : Option String :=
  if isPrefixCI label cs then
    alts.find? fun a => isPrefixCI a.data ((cs.drop label.length).dropWhile jsWhitespace)
  else none

/-- `text.match(/LABEL:\s*(alt1|alt2|...)/i)`: leftmost position wins. -/
def scanAlts (label : List Char) (alts : List String) : List Char → Option String
  | [] => altAt label alts []
  | c :: cs => (altAt label alts (c :: cs)).orElse fun _ => scanAlts label alts cs

/-- The JS `.` character class (anything but a line terminator). -/
def dotChar (c : Char) : Bool :=
  !(c = '\n' || c = '\r' || c = '\u2028' || c = '\u2029')

/-- Greedy `(.+)` at the start of `xs`: the maximal run of `.`-characters,
provided there is at least one. -/
def tryDot (xs : List Char) : Option (List Char) :=
  match xs with
  | [] => none
  | c :: _ => if dotChar c then some (xs.takeWhile dotChar) else none

/-- Backtracking `\s*(.+)` after the label: `\s*` first consumes `k`
whitespace characters greedily and gives characters back one at a time
until `(.+)` can match. -/
def backtrackDot (rest : List Char) : Nat → Option (List Char)
  | 0 => tryDot rest
  | k + 1 => (tryDot (rest.drop (k + 1))).orElse fun _ => backtrackDot rest k

/-- At one position: match `LABEL:\s*(.+)` and return the capture. -/
def restAt (label : List Char) (cs : List Char) : Option (List Char) :=
  if isPrefixCI label cs then
    let rest := cs.drop label.length
    backtrackDot rest (rest.takeWhile jsWhitespace).length
  else none

/-- `text.match(/LABEL:\s*(.+)/i)`: leftmost position wins. -/
def scanRest (label : List Char) : List Char → Option (List Char)
  | [] => restAt label []
  | c :: cs => (restAt label (c :: cs)).orElse fun _ => scanRest label cs

/-- ASCII digit test (`\d`). -/
def isDigitChar (c : Char) : Bool := '0' ≤ c && c ≤ '9'

/-- At one position: match `LABEL:\s*(\d+)` and return the digit capture
(no backtracking is possible: digits are not whitespace). -/
def digitsAt (label : List Char) (cs : List Char) : Option (List Char) :=
  if isPrefixCI label cs then
    let rest := (cs.drop label.length).dropWhile jsWhitespace
    match rest with
    | [] => none
    | c :: _ => if isDigitChar c then some (rest.takeWhile isDigitChar) else none
  else none

/-- `text.match(/LABEL:\s*(\d+)/i)`: leftmost position wins. -/
def scanDigits (label : List Char) : List Char → Option (List Char)
  | [] => digitsAt label []
  | c :: cs => (digitsAt label (c :: cs)).orElse fun _ => scanDigits label cs

/-- `parseInt(digits, 10)` on a nonempty all-digit capture. -/
def readNat (cs : List Char) : Nat :=
  cs.foldl (fun a c => a * 10 + (c.toNat - 48)) 0

/-- The alternation of the `CHANGE_TYPE` field, in source order. -/
def CHANGE_TYPE_ALTS : List String :=
  ["feature", "fix", "refactor", "docs", "chore", "trivial"]

/-- Source `BranchAnalysis`.  `changeType` is a TS string-union value. -/
structure BranchAnalysis where
  changeType : String
  isTrivial : Bool
  suggestedBranchName : String
  branchPrefix : String
  shortDescription : String
deriving DecidableEq, Repr

/-- Source constant `DEFAULT_ANALYSIS`. -/
def DEFAULT_ANALYSIS : BranchAnalysis :=
  ⟨"feature", false, "feature/changes", "feature", "changes"⟩

/-- One iteration of the `for (const line of lines)` loop of
`parseAnalysisResponse`: each matching field overwrites the accumulator. -/
def parseAnalysisLine (acc : String × Bool × String) (line : List Char) :
    String × Bool × String :=
  let ct := match scanAlts "CHANGE_TYPE:".data CHANGE_TYPE_ALTS line with
            | some v => v
            | none => acc.1
  let tv := match scanAlts "IS_TRIVIAL:".data ["true", "false"] line with
            | some v => v = "true"
            | none => acc.2.1
  let ds := match scanRest "SHORT_DESC:".data line with
            | some cap => sanitizeDescription ⟨cap⟩
            | none => acc.2.2
  (ct, tv, ds)

/-- `parseAnalysisResponse` from `src/utils/branchAnalyzer.ts`.  The
source's return type is `BranchAnalysis | null` but no path returns
`null`, so the model is total. -/
def parseAnalysisResponse (output : String) : BranchAnalysis :=
  let lines := (splitNl output.data).filter fun l => !l.all jsWhitespace
  let acc := lines.foldl parseAnalysisLine ("feature", false, "changes")
  let branchPrefix := if acc.1 = "trivial" then "chore" else acc.1
  { changeType := acc.1
    isTrivial := acc.2.1
    suggestedBranchName := branchPrefix ++ "/" ++ acc.2.2
    branchPrefix := branchPrefix
    shortDescription := acc.2.2 }

/-! ## Git facade: branch-name validation
    (source: `src/utils/git.ts`, `createBranch`) -/

/-- The charset of `createBranch`'s validation `/^[a-zA-Z0-9/_-]+$/`. -/
def validBranchChar (c : Char) : Bool :=
  ('a' ≤ c && c ≤ 'z') || ('A' ≤ c && c ≤ 'Z') || ('0' ≤ c && c ≤ '9') ||
  c = '/' || c = '_' || c = '-'

/-- `createBranch`'s branch-name validation: nonempty and every character
in the restricted charset (command-injection guard). -/
def validBranchName (name : String) : Bool :=
  !name.data.isEmpty && name.data.all validBranchChar

/-- The invariant charset of a sanitised short description:
lowercase letters, digits, hyphen. -/
def goodDescChar (c : Char) : Bool :=
  ('a' ≤ c && c ≤ 'z') || ('0' ≤ c && c ≤ '9') || c = '-'

lemma optNoneOrElse {α : Type} (f : Unit → Option α) :
    (none : Option α).orElse f = f () := rfl

lemma optSomeOrElse {α : Type} (v : α) (f : Unit → Option α) :
    (some v).orElse f = some v := rfl

lemma collapseWsAux_chars (l : List Char) :
    ∀ (b : Bool) (c : Char), c ∈ collapseWsAux b l →
      (∀ x ∈ l, sanitizeAllowed x = true) → goodDescChar c = true := by
  induction l with
  | nil => intro b c hc _; simp [collapseWsAux] at hc
  | cons d ds ih =>
    intro b c hc hall
    by_cases hws : jsWhitespace d = true
    · rw [collapseWsAux, if_pos hws] at hc
      have hnext : ∀ x ∈ ds, sanitizeAllowed x = true :=
        fun x hx => hall x (List.mem_cons_of_mem d hx)
      cases b with
      | true => exact ih true c hc hnext
      | false =>
        rcases List.mem_cons.mp hc with h | h
        · subst h; decide
        · exact ih true c h hnext
    · rw [collapseWsAux, if_neg hws] at hc
      rcases List.mem_cons.mp hc with h | h
      · subst h
        have hd := hall c (List.mem_cons_self c ds)
        simp only [sanitizeAllowed, Bool.or_eq_true] at hd
        simp only [goodDescChar, Bool.or_eq_true]
        rcases hd with ((h' | h') | h') | h'
        · exact Or.inl (Or.inl h')
        · exact Or.inl (Or.inr h')
        · exact absurd h' (by simp [hws])
        · exact Or.inr h'
      · exact ih false c h fun x hx => hall x (List.mem_cons_of_mem d hx)

lemma collapseWs_chars (l : List Char) (c : Char) (hc : c ∈ collapseWs l)
    (hall : ∀ x ∈ l, sanitizeAllowed x = true) : goodDescChar c = true :=
  collapseWsAux_chars l false c hc hall

lemma sanitizeDescription_good (s : String) :
    ((sanitizeDescription s).data.all goodDescChar) = true ∧
    (sanitizeDescription s).length ≤ 40 := by
  constructor
  · rw [List.all_eq_true]
    intro c hc
    have hc' : c ∈ collapseWs (((jsTrim s.data).map jsToLower).filter sanitizeAllowed) :=
      List.mem_of_mem_take hc
    exact collapseWs_chars _ c hc' fun x hx => (List.mem_filter.mp hx).2
  · show (sanitizeDescription s).data.length ≤ 40
    simpa [sanitizeDescription, MAX_DESCRIPTION_LENGTH] using
      List.length_take_le 40 _

/-- The invariant carried through `parseAnalysisResponse`'s line loop. -/
def analysisAccInv (acc : String × Bool × String) : Prop :=
  acc.1 ∈ CHANGE_TYPE_ALTS ∧
  (acc.2.2.data.all goodDescChar) = true ∧ acc.2.2.length ≤ 40

lemma scanAlts_mem {label : List Char} {alts : List String} {v : String} :
    ∀ {cs : List Char}, scanAlts label alts cs = some v → v ∈ alts := by
  have haux : ∀ {cs : List Char}, altAt label alts cs = some v → v ∈ alts := by
    intro cs h
    unfold altAt at h
    split at h
    · exact List.mem_of_find?_eq_some h
    · exact absurd h (by simp)
  intro cs
  induction cs with
  | nil => intro h; exact haux h
  | cons c cs ih =>
    intro h
    rcases halt : altAt label alts (c :: cs) with _ | w
    · rw [scanAlts, halt, optNoneOrElse] at h
      exact ih h
    · rw [scanAlts, halt, optSomeOrElse] at h
      cases h
      exact haux halt

lemma parseAnalysisLine_inv (acc : String × Bool × String) (line : List Char)
    (h : analysisAccInv acc) : analysisAccInv (parseAnalysisLine acc line) := by
  unfold parseAnalysisLine analysisAccInv
  refine ⟨?_, ?_⟩
  · rcases hct : scanAlts "CHANGE_TYPE:".data CHANGE_TYPE_ALTS line with _ | v
    · simpa using h.1
    · simpa using scanAlts_mem hct
  · rcases hds : scanRest "SHORT_DESC:".data line with _ | cap
    · simpa using h.2
    · simpa using sanitizeDescription_good ⟨cap⟩

lemma foldl_analysis_inv (lines : List (List Char)) (acc : String × Bool × String)
    (h : analysisAccInv acc) : analysisAccInv (lines.foldl parseAnalysisLine acc) := by
  induction lines generalizing acc with
  | nil => exact h
  | cons l ls ih => exact ih _ (parseAnalysisLine_inv acc l h)

/-- C7: for every agent reply, the `BranchAnalysis` of the branch
classifier has a `shortDescription` made only of lowercase letters,
digits and hyphens and at most 40 characters long; and the suggested
branch name `branchPrefix ++ "/" ++ shortDescription` always passes
`createBranch`'s branch-name validation. -/
theorem branch_analysis_invariant (output : String) :
    ((parseAnalysisResponse output).shortDescription.data.all goodDescChar) = true ∧
    (parseAnalysisResponse output).shortDescription.length ≤ 40 ∧
    (parseAnalysisResponse output).suggestedBranchName =
      (parseAnalysisResponse output).branchPrefix ++ "/" ++
        (parseAnalysisResponse output).shortDescription ∧
    validBranchName (parseAnalysisResponse output).suggestedBranchName = true := by
  have hinv : analysisAccInv
      (((splitNl output.data).filter fun l => !l.all jsWhitespace).foldl
        parseAnalysisLine ("feature", false, "changes")) :=
    foldl_analysis_inv _ _ (by refine ⟨by decide, by decide, by decide⟩)
  set acc := ((splitNl output.data).filter fun l => !l.all jsWhitespace).foldl
      parseAnalysisLine ("feature", false, "changes") with hacc
  obtain ⟨hct, hgood, hlen⟩ := hinv
  have hcases : acc.1 = "feature" ∨ acc.1 = "fix" ∨ acc.1 = "refactor" ∨
      acc.1 = "docs" ∨ acc.1 = "chore" ∨ acc.1 = "trivial" := by
    simpa [CHANGE_TYPE_ALTS] using hct
  have hbpvalid : (if acc.1 = "trivial" then "chore" else acc.1).data.all
      validBranchChar = true ∧
      (if acc.1 = "trivial" then "chore" else acc.1).data ≠ [] := by
    rcases hcases with h | h | h | h | h | h <;> rw [h] <;> exact ⟨by decide, by decide⟩
  refine ⟨hgood, hlen, rfl, ?_⟩
  show validBranchName ((if acc.1 = "trivial" then "chore" else acc.1) ++ "/" ++ acc.2.2)
      = true
  unfold validBranchName
  rw [String.data_append, String.data_append]
  have hgood' : ∀ c ∈ acc.2.2.data, validBranchChar c = true := by
    intro c hc
    have := (List.all_eq_true.mp hgood) c hc
    simp only [goodDescChar, Bool.or_eq_true] at this
    simp only [validBranchChar, Bool.or_eq_true]
    rcases this with (h | h) | h
    · exact Or.inl (Or.inl (Or.inl (Or.inl (Or.inl h))))
    · exact Or.inl (Or.inl (Or.inl (Or.inr h)))
    · exact Or.inr h
  rw [Bool.and_eq_true]
  constructor
  · rcases hbpvalid with ⟨_, hne⟩
    rcases h : (if acc.1 = "trivial" then "chore" else acc.1).data with _ | ⟨c, cs⟩
    · exact absurd h hne
    · simp
  · rw [List.all_eq_true]
    intro c hc
    rcases List.mem_append.mp hc with h | h
    · rcases List.mem_append.mp h with h' | h'
      · exact (List.all_eq_true.mp hbpvalid.1) c h'
      · have : c = '/' := by simpa using h'
        subst this; decide
    · exact hgood' c h

/-! ## Adaptive step analyzer: response parsing
    (source: `src/utils/stepAnalyzer.ts`)

Unlike the branch classifier, `parseAdaptiveResponse` searches the
whole reply (not line by line); `\s*` may therefore cross newlines,
which the whitespace model already allows. -/

/-- Source constant `MIN_REVIEW_ITERATIONS = 1`. -/
def MIN_REVIEW_ITERATIONS : Nat := 1

/-- Source constant `MAX_REVIEW_ITERATIONS = 3`. -/
def MAX_REVIEW_ITERATIONS : Nat := 3

/-- Source constant `DEFAULT_REVIEW_ITERATIONS = 2`. -/
def DEFAULT_REVIEW_ITERATIONS : Nat := 2

/-- Source `StepRecommendation`; the enumerated TS unions are strings. -/
structure StepRecommendation where
  skipSimplify : Bool
  skipReview : Bool
  skipSolid : Bool
  skipTests : Bool
  skipChangelog : Bool
  reviewDepth : String
  reviewIterations : Nat
  reasoning : String
deriving DecidableEq, Repr

/-- Source `AdaptiveAnalysis`. -/
structure AdaptiveAnalysis where
  changeType : String
  isTrivial : Bool
  complexity : String
  riskLevel : String
  affectedAreas : List String
  stepRecommendation : StepRecommendation
deriving DecidableEq, Repr

/-- Source constant `DEFAULT_STEP_RECOMMENDATION`. -/
def DEFAULT_STEP_RECOMMENDATION : StepRecommendation :=
  { skipSimplify := false
    skipReview := false
    skipSolid := false
    skipTests := false
    skipChangelog := false
    reviewDepth := "standard"
    reviewIterations := DEFAULT_REVIEW_ITERATIONS
    reasoning := "Default configuration - standard pipeline execution" }

/-- Source constant `DEFAULT_ADAPTIVE_ANALYSIS`. -/
def DEFAULT_ADAPTIVE_ANALYSIS : AdaptiveAnalysis :=
  { changeType := "feature"
    isTrivial := false
    complexity := "medium"
    riskLevel := "medium"
    affectedAreas := ["code"]
    stepRecommendation := DEFAULT_STEP_RECOMMENDATION }

/-- `extractField(output, field, pattern)`: label-anchored search of
`FIELD:\s*(alt1|alt2|...)` over the whole reply, capture lowercased. -/
def extractField (output : String) (field : String) (alts : List String) : Option String :=
  scanAlts (field ++ ":").data alts output.data

/-- `extractBool(output, field)`. -/
def extractBool (output : String) (field : String) : Option Bool :=
  (extractField output field ["true", "false"]).map fun v => v = "true"

/-- `text.split(sep)` for a one-character separator. -/
def splitOnChar (sep : Char) : List Char → List (List Char)
  | [] => [[]]
  | c :: cs =>
    if c = sep then [] :: splitOnChar sep cs
    else
      match splitOnChar sep cs with
      | [] => [[c]]
      | l :: ls => (c :: l) :: ls

/-- `parseAdaptiveResponse` from `src/utils/stepAnalyzer.ts`.  Total by
construction: every field that fails to parse falls back to its named
default (the source throws nowhere). -/
def parseAdaptiveResponse (output : String) : AdaptiveAnalysis :=
  let changeType := (extractField output "CHANGE_TYPE" CHANGE_TYPE_ALTS).getD "feature"
  let isTrivial := (extractBool output "IS_TRIVIAL").getD false
  let complexity :=
    (extractField output "COMPLEXITY" ["low", "medium", "high"]).getD "medium"
  let riskLevel :=
    (extractField output "RISK_LEVEL" ["low", "medium", "high"]).getD "medium"
  let affectedAreas :=
    match scanRest "AFFECTED_AREAS:".data output.data with
    | some cap => (splitOnChar ',' cap).map fun a => (⟨(jsTrim a).map jsToLower⟩ : String)
    | none => ["code"]
  let reviewDepth :=
    (extractField output "REVIEW_DEPTH" ["minimal", "standard", "thorough"]).getD "standard"
  let reviewIterations :=
    match scanDigits "REVIEW_ITERATIONS:".data output.data with
    | some ds => min (max (readNat ds) MIN_REVIEW_ITERATIONS) MAX_REVIEW_ITERATIONS
    | none => DEFAULT_REVIEW_ITERATIONS
  let reasoning :=
    match scanRest "REASONING:".data output.data with
    | some cap => (⟨jsTrim cap⟩ : String)
    | none => "AI-analyzed step configuration"
  { changeType := changeType
    isTrivial := isTrivial
    complexity := complexity
    riskLevel := riskLevel
    affectedAreas := affectedAreas
    stepRecommendation :=
      { skipSimplify := (extractBool output "SKIP_SIMPLIFY").getD false
        skipReview := (extractBool output "SKIP_REVIEW").getD false
        skipSolid := (extractBool output "SKIP_SOLID").getD false
        skipTests := (extractBool output "SKIP_TESTS").getD false
        skipChangelog := (extractBool output "SKIP_CHANGELOG").getD false
        reviewDepth := reviewDepth
        reviewIterations := reviewIterations
        reasoning := reasoning } }

/-- The labelled fields `parseAdaptiveResponse` searches for. -/
def ADAPTIVE_FIELD_LABELS : List String :=
  ["CHANGE_TYPE:", "IS_TRIVIAL:", "COMPLEXITY:", "RISK_LEVEL:", "AFFECTED_AREAS:",
   "SKIP_SIMPLIFY:", "SKIP_REVIEW:", "SKIP_SOLID:", "SKIP_TESTS:", "SKIP_CHANGELOG:",
   "REVIEW_DEPTH:", "REVIEW_ITERATIONS:", "REASONING:"]

lemma scanAlts_none (label : List Char) (alts : List String) :
    ∀ cs, containsCI label cs = false → scanAlts label alts cs = none := by
  have haux : ∀ cs, isPrefixCI label cs = false → altAt label alts cs = none := by
    intro cs h
    unfold altAt
    rw [h]
    simp
  intro cs
  induction cs with
  | nil =>
    intro h
    rw [containsCI] at h
    exact haux [] h
  | cons c cs ih =>
    intro h
    rw [containsCI, Bool.or_eq_false_iff] at h
    rw [scanAlts, haux _ h.1, optNoneOrElse]
    exact ih h.2

lemma scanRest_none (label : List Char) :
    ∀ cs, containsCI label cs = false → scanRest label cs = none := by
  have haux : ∀ cs, isPrefixCI label cs = false → restAt label cs = none := by
    intro cs h
    unfold restAt
    rw [h]
    simp
  intro cs
  induction cs with
  | nil =>
    intro h
    rw [containsCI] at h
    exact haux [] h
  | cons c cs ih =>
    intro h
    rw [containsCI, Bool.or_eq_false_iff] at h
    rw [scanRest, haux _ h.1, optNoneOrElse]
    exact ih h.2

lemma scanDigits_none (label : List Char) :
    ∀ cs, containsCI label cs = false → scanDigits label cs = none := by
  have haux : ∀ cs, isPrefixCI label cs = false → digitsAt label cs = none := by
    intro cs h
    unfold digitsAt
    rw [h]
    simp
  intro cs
  induction cs with
  | nil =>
    intro h
    rw [containsCI] at h
    exact haux [] h
  | cons c cs ih =>
    intro h
    rw [containsCI, Bool.or_eq_false_iff] at h
    rw [scanDigits, haux _ h.1, optNoneOrElse]
    exact ih h.2

/-- C2 counterexample: a reply containing none of the expected labelled
fields parses to the per-field defaults, but the resulting
`StepRecommendation` is *not* exactly `DEFAULT_STEP_RECOMMENDATION`: the
rationale is the parse fallback `"AI-analyzed step configuration"`, not
the default object's `"Default configuration - standard pipeline
execution"`. -/
theorem adaptive_parse_counterexample :
    (parseAdaptiveResponse "hello world").stepRecommendation ≠
      DEFAULT_STEP_RECOMMENDATION ∧
    (parseAdaptiveResponse "hello world").stepRecommendation.reasoning =
      "AI-analyzed step configuration" ∧
    DEFAULT_STEP_RECOMMENDATION.reasoning =
      "Default configuration - standard pipeline execution" := by
  refine ⟨by decide, by decide, by decide⟩

/-- C2 (amended): for every reply containing none of the expected
labelled fields, `parseAdaptiveResponse` yields exactly the per-field
defaults — all five skip booleans `false`, `reviewDepth = "standard"`,
`reviewIterations = 2`, and the parse-fallback rationale `"AI-analyzed
step configuration"` (which differs from `DEFAULT_STEP_RECOMMENDATION`
only in the rationale string) — and the parse is total, so it never
throws. -/
theorem adaptive_parse_defaulting (output : String)
    (h : ∀ label ∈ ADAPTIVE_FIELD_LABELS, containsCI label.data output.data = false) :
    parseAdaptiveResponse output =
      { changeType := "feature", isTrivial := false, complexity := "medium",
        riskLevel := "medium", affectedAreas := ["code"],
        stepRecommendation :=
          { DEFAULT_STEP_RECOMMENDATION with
              reasoning := "AI-analyzed step configuration" } } := by
  have hl : ∀ label ∈ ADAPTIVE_FIELD_LABELS, containsCI label.data output.data = false := h
  simp only [ADAPTIVE_FIELD_LABELS, List.mem_cons, List.mem_singleton, forall_eq_or_imp,
    forall_eq] at hl
  obtain ⟨h1, h2, h3, h4, h5, h6, h7, h8, h9, h10, h11, h12, h13, -⟩ := hl
  simp only [parseAdaptiveResponse, extractBool, extractField]
  rw [show ("CHANGE_TYPE" ++ ":" : String) = "CHANGE_TYPE:" from rfl,
      show ("IS_TRIVIAL" ++ ":" : String) = "IS_TRIVIAL:" from rfl,
      show ("COMPLEXITY" ++ ":" : String) = "COMPLEXITY:" from rfl,
      show ("RISK_LEVEL" ++ ":" : String) = "RISK_LEVEL:" from rfl,
      show ("SKIP_SIMPLIFY" ++ ":" : String) = "SKIP_SIMPLIFY:" from rfl,
      show ("SKIP_REVIEW" ++ ":" : String) = "SKIP_REVIEW:" from rfl,
      show ("SKIP_SOLID" ++ ":" : String) = "SKIP_SOLID:" from rfl,
      show ("SKIP_TESTS" ++ ":" : String) = "SKIP_TESTS:" from rfl,
      show ("SKIP_CHANGELOG" ++ ":" : String) = "SKIP_CHANGELOG:" from rfl,
      show ("REVIEW_DEPTH" ++ ":" : String) = "REVIEW_DEPTH:" from rfl,
      scanAlts_none _ _ _ h1, scanAlts_none _ _ _ h3, scanAlts_none _ _ _ h4,
      scanAlts_none _ _ _ h2, scanAlts_none _ _ _ h6, scanAlts_none _ _ _ h7,
      scanAlts_none _ _ _ h8, scanAlts_none _ _ _ h9, scanAlts_none _ _ _ h10,
      scanAlts_none _ _ _ h11, scanRest_none _ _ h5, scanRest_none _ _ h13,
      scanDigits_none _ _ h12]
  rfl

theorem adaptive_parse_defaulting_witness :
    (∀ label ∈ ADAPTIVE_FIELD_LABELS, containsCI label.data "hello there".data = false) ∧
    parseAdaptiveResponse "hello there" =
      { changeType := "feature", isTrivial := false, complexity := "medium",
        riskLevel := "medium", affectedAreas := ["code"],
        stepRecommendation :=
          { DEFAULT_STEP_RECOMMENDATION with
              reasoning := "AI-analyzed step configuration" } } :=
  ⟨by decide, adaptive_parse_defaulting "hello there" (by decide)⟩

/-! ## Branch management stage: collision-avoiding branch naming
    (source: `src/steps/branchManagement.ts`, the `while (branchExists(...))`
    loop)

JS template interpolation `${counter}` renders the counter in decimal;
`natToDecimal` is that rendering. -/

/-- One decimal digit character. -/
def decDigit : Nat → Char
  | 0 => '0' | 1 => '1' | 2 => '2' | 3 => '3' | 4 => '4'
  | 5 => '5' | 6 => '6' | 7 => '7' | 8 => '8' | 9 => '9'
  | _ => '?'

/-- Decimal rendering, by structural recursion on a fuel bound so that
the definition reduces in the kernel; `natToDecimal` supplies enough
fuel. -/
def natToDecimalAux : Nat → Nat → List Char
  | 0, _ => []
  | fuel + 1, n =>
    if n < 10 then [decDigit n]
    else natToDecimalAux fuel (n / 10) ++ [decDigit (n % 10)]

/-- Decimal rendering of a natural number (JS `${n}` for a small integer). -/
def natToDecimal (n : Nat) : List Char := natToDecimalAux (n + 1) n

/-- `${prefix}/${desc}-${counter}` from the collision loop. -/
def numberedBranchName (pre desc : String) (counter : Nat) : String :=
  pre ++ "/" ++ desc ++ "-" ++ (⟨natToDecimal counter⟩ : String)

/-- The loop body of
`while (branchExists(branchName)) { branchName = ...; counter++; }`
against a fixed finite set of existing local and remote branch names.
`fuel` bounds the number of `branchExists` checks; `branch_collision_resolution`
shows that `existing.length + 1` checks always suffice, which is why the
loop terminates. -/
def resolveBranchName (existing : List String) (pre desc : String) :
    Nat → String → Nat → String
  | 0, name, _ => name
  | fuel + 1, name, counter =>
    if name ∈ existing then
      resolveBranchName existing pre desc fuel
        (numberedBranchName pre desc counter) (counter + 1)
    else name

/-- The collision-avoided branch name settled on by
`stepBranchManagement`, starting from the classifier's suggestion with
`counter = 1`. -/
def uniqueBranchName (existing : List String) (pre desc suggested : String) : String :=
  resolveBranchName existing pre desc (existing.length + 1) suggested 1

lemma readNat_decDigit (d : Nat) (h : d < 10) : (decDigit d).toNat - 48 = d := by
  interval_cases d <;> rfl

lemma readNat_append_digit (cs : List Char) (c : Char) :
    readNat (cs ++ [c]) = readNat cs * 10 + (c.toNat - 48) := by
  unfold readNat
  rw [List.foldl_append]
  rfl

lemma readNat_natToDecimalAux :
    ∀ (fuel n : Nat), n < fuel → readNat (natToDecimalAux fuel n) = n := by
  intro fuel
  induction fuel with
  | zero => intro n h; omega
  | succ f ih =>
    intro n hn
    by_cases h : n < 10
    · rw [natToDecimalAux, if_pos h]
      show 0 * 10 + ((decDigit n).toNat - 48) = n
      rw [readNat_decDigit n h]
      omega
    · have hdx : n / 10 < n := Nat.div_lt_self (by omega) (by omega)
      have hdiv : n / 10 < f := by omega
      rw [natToDecimalAux, if_neg h, readNat_append_digit, ih (n / 10) hdiv,
        readNat_decDigit (n % 10) (Nat.mod_lt n (by omega))]
      omega

lemma readNat_natToDecimal (n : Nat) : readNat (natToDecimal n) = n :=
  readNat_natToDecimalAux (n + 1) n (Nat.lt_succ_self n)

lemma natToDecimal_injective : Function.Injective natToDecimal := by
  intro a b h
  have := congrArg readNat h
  rwa [readNat_natToDecimal, readNat_natToDecimal] at this

lemma numberedBranchName_injective (pre desc : String) :
    Function.Injective (numberedBranchName pre desc) := by
  intro a b h
  unfold numberedBranchName at h
  have hdata := congrArg String.data h
  simp only [String.data_append] at hdata
  exact natToDecimal_injective (List.append_cancel_left hdata)

lemma resolveBranchName_head_mem (existing : List String) (pre desc : String)
    (fuel : Nat) (name : String) (counter : Nat)
    (h : resolveBranchName existing pre desc fuel name counter ∈ existing) :
    name ∈ existing := by
  cases fuel with
  | zero => exact h
  | succ f =>
    rw [resolveBranchName] at h
    split at h
    · assumption
    · exact h

lemma resolveBranchName_all_mem (existing : List String) (pre desc : String) :
    ∀ (fuel : Nat) (name : String) (counter : Nat),
      resolveBranchName existing pre desc fuel name counter ∈ existing →
      ∀ k, k < fuel → numberedBranchName pre desc (counter + k) ∈ existing := by
  intro fuel
  induction fuel with
  | zero => intro name counter _ k hk; omega
  | succ f ih =>
    intro name counter h k hk
    rw [resolveBranchName] at h
    split at h
    · have hhead : numberedBranchName pre desc counter ∈ existing :=
        resolveBranchName_head_mem existing pre desc f _ _ h
      cases k with
      | zero => simpa using hhead
      | succ j =>
        have := ih _ _ h j (by omega)
        have harith : counter + 1 + j = counter + (j + 1) := by omega
        rwa [harith] at this
    · exact absurd h (by assumption)

lemma resolveBranchName_stable (existing : List String) (pre desc : String) :
    ∀ (fuel : Nat) (name : String) (counter : Nat),
      resolveBranchName existing pre desc fuel name counter ∉ existing →
      ∀ extra, resolveBranchName existing pre desc (fuel + extra) name counter =
        resolveBranchName existing pre desc fuel name counter := by
  have hfree : ∀ (f : Nat) (name : String) (counter : Nat), name ∉ existing →
      resolveBranchName existing pre desc f name counter = name := by
    intro f name counter h
    cases f with
    | zero => rfl
    | succ f' => rw [resolveBranchName, if_neg h]
  intro fuel
  induction fuel with
  | zero =>
    intro name counter h extra
    rw [Nat.zero_add]
    exact hfree extra name counter h
  | succ f ih =>
    intro name counter h extra
    by_cases hname : name ∈ existing
    · rw [resolveBranchName, if_pos hname] at h
      have harith : f + 1 + extra = (f + extra) + 1 := by omega
      rw [resolveBranchName, if_pos hname, harith, resolveBranchName, if_pos hname]
      exact ih _ _ h extra
    · rw [hfree _ _ _ hname, hfree _ _ _ hname]

lemma resolveBranchName_shape (existing : List String) (pre desc : String) :
    ∀ (fuel : Nat) (name : String) (counter : Nat),
      resolveBranchName existing pre desc fuel name counter = name ∨
      ∃ c, counter ≤ c ∧
        resolveBranchName existing pre desc fuel name counter =
          numberedBranchName pre desc c := by
  intro fuel
  induction fuel with
  | zero => intro name counter; exact Or.inl rfl
  | succ f ih =>
    intro name counter
    rw [resolveBranchName]
    split
    · rcases ih (numberedBranchName pre desc counter) (counter + 1) with h | ⟨c, hc, h⟩
      · exact Or.inr ⟨counter, Nat.le_refl _, h⟩
      · exact Or.inr ⟨c, by omega, h⟩
    · exact Or.inl rfl

/-- The settled name is never a member of the existing set: if it were,
the `existing.length + 1` pairwise-distinct candidate names checked
before it would all lie in a list of length `existing.length`. -/
lemma uniqueBranchName_fresh (existing : List String) (pre desc suggested : String) :
    uniqueBranchName existing pre desc suggested ∉ existing := by
  intro hmem
  have hall := resolveBranchName_all_mem existing pre desc
    (existing.length + 1) suggested 1 hmem
  have hsub : (Finset.range (existing.length + 1)).image
      (fun k => numberedBranchName pre desc (1 + k)) ⊆ existing.toFinset := by
    intro x hx
    rcases Finset.mem_image.mp hx with ⟨k, hk, rfl⟩
    exact List.mem_toFinset.mpr (hall k (Finset.mem_range.mp hk))
  have hinj : Function.Injective (fun k => numberedBranchName pre desc (1 + k)) := by
    intro a b hab
    have := numberedBranchName_injective pre desc hab
    omega
  have hcard := Finset.card_le_card hsub
  rw [Finset.card_image_of_injective _ hinj, Finset.card_range] at hcard
  have := existing.toFinset_card_le
  omega

/-! ## External-process model: configuration, world, effect traces

`World` fixes the observable behaviour of the process environment for
one run: what each git query prints, whether `git checkout -b` succeeds,
and how the two classifier `claude` subprocesses end.  Every operation
returns its value together with the list of external processes it
spawned (and the warnings it logged), so dry-run claims are statements
about the trace. -/

/-- An observable effect: spawning `git <cmd>`, spawning the external
`claude` binary, or logging a warning. -/
inductive Eff where
  | git (cmd : String)
  | claude
  | warn (msg : String)
deriving DecidableEq, Repr

/-- How a spawned subprocess ends: `close` with an exit code (`none` when
killed by a signal) and captured stdout, or a spawn error. -/
inductive ProcOutcome where
  | closed (exitCode : Option Int) (stdout : String)
  | spawnErr
deriving Repr

/-- The environment of one run. -/
structure World where
  gitRun : String → String
  checkoutOk : String → Bool
  claudeAnalysisOutcome : ProcOutcome
  claudeStepsOutcome : ProcOutcome

/-- Source `Config` (`src/config.ts`). -/
structure Config where
  requirement : String
  reviewIterations : Nat
  dryRun : Bool
  skipTests : Bool
  skipPush : Bool
  skipBranchManagement : Bool
  dangerouslySkipPermissions : Bool
  allowedTools : Option String
  logFile : Option String
  adaptiveExecution : Bool

/-- `execGit(command)`: run `git <command>`, returning trimmed stdout, or
`''` on failure — both are `w.gitRun`'s to decide. -/
def execGit (w : World) (cmd : String) : String × List Eff :=
  (w.gitRun cmd, [.git cmd])

/-- `getCurrentBranch()`: `execGit('symbolic-ref --short HEAD') ||
execGit('rev-parse --short HEAD')` — the second command runs only when
the first prints nothing. -/
def getCurrentBranch (w : World) : String × List Eff :=
  let r1 := execGit w "symbolic-ref --short HEAD"
  if r1.1 ≠ "" then r1
  else
    let r2 := execGit w "rev-parse --short HEAD"
    (r2.1, r1.2 ++ r2.2)

/-- Source constant `MAIN_BRANCH_NAMES`. -/
def MAIN_BRANCH_NAMES : List String := ["main", "master", "develop", "dev"]

/-- `isMainBranch(branchName)`. -/
def isMainBranch (branchName : String) : Bool :=
  MAIN_BRANCH_NAMES.contains (⟨branchName.data.map jsToLower⟩ : String)

/-- `hasUncommittedChanges()`. -/
def hasUncommittedChanges (w : World) : Bool × List Eff :=
  let r := execGit w "status --porcelain"
  (r.1.length > 0, r.2)

/-- Plain (case-sensitive) substring test, JS `String.prototype.includes`. -/
def containsSub (needle : List Char) : List Char → Bool
  | [] => needle.isPrefixOf []
  | c :: cs => needle.isPrefixOf (c :: cs) || containsSub needle cs

/-- `replace(/^origin\//, '')`. -/
def stripOrigin (cs : List Char) : List Char :=
  if "origin/".data.isPrefixOf cs then cs.drop "origin/".data.length else cs

/-- `replace(/^\*\s*/, '')`. -/
def stripStarWs : List Char → List Char
  | '*' :: rest => rest.dropWhile jsWhitespace
  | cs => cs

/-- `getRemoteBranches()`. -/
def getRemoteBranches (w : World) : List String × List Eff :=
  let out := execGit w "branch -r"
  if out.1 = "" then ([], out.2)
  else
    (((splitNl out.1.data).map fun b => (⟨stripOrigin (jsTrim b)⟩ : String)).filter
      (fun b => b ≠ "" && !containsSub "HEAD".data b.data),
     out.2)

/-- Source `GitState`. -/
structure GitState where
  currentBranch : String
  isMainBranch : Bool
  hasUncommittedChanges : Bool
  remoteBranches : List String
deriving DecidableEq, Repr

/-- `getGitState()`: the four queries in source order. -/
def getGitState (w : World) : GitState × List Eff :=
  let cb := getCurrentBranch w
  let uc := hasUncommittedChanges w
  let rb := getRemoteBranches w
  ({ currentBranch := cb.1, isMainBranch := isMainBranch cb.1,
     hasUncommittedChanges := uc.1, remoteBranches := rb.1 },
   cb.2 ++ uc.2 ++ rb.2)

/-- The local-branch list `branchExists` builds from `git branch --list`. -/
def localBranchList (w : World) : List String :=
  (splitNl (w.gitRun "branch --list").data).map fun b =>
    (⟨stripStarWs (jsTrim b)⟩ : String)

/-- `branchExists(branchName)`. -/
def branchExists (w : World) (branchName : String) : Bool × List Eff :=
  let localBranches := execGit w "branch --list"
  let remotes := getRemoteBranches w
  let localList := (splitNl localBranches.1.data).map fun b =>
    (⟨stripStarWs (jsTrim b)⟩ : String)
  (localList.contains branchName || remotes.1.contains branchName,
   localBranches.2 ++ remotes.2)

/-- The set `branchExists` tests membership of, as one list. -/
def existingBranches (w : World) : List String :=
  localBranchList w ++ (getRemoteBranches w).1

/-- `createBranch(branchName)`: reject invalid names before spawning. -/
def createBranch (w : World) (branchName : String) : Bool × List Eff :=
  if !validBranchName branchName then (false, [])
  else (w.checkoutOk branchName, [.git ("checkout -b " ++ branchName)])

/-- Source `BranchConflict`. -/
structure BranchConflict where
  branchName : String
  similarity : String
deriving DecidableEq, Repr

/-- The `split('/').pop() || ''` suffix of a branch name. -/
def lastSlashSegment (cs : List Char) : List Char :=
  ((splitOnChar '/' cs).getLast?).getD []

/-- `findSimilarBranches(keyword, remoteBranches)`. -/
def findSimilarBranches (keyword : String) (remoteBranches : List String) :
    List BranchConflict :=
  let nk := keyword.data.map jsToLower
  if nk.isEmpty then []
  else
    remoteBranches.filterMap fun branch =>
      let nb := branch.data.map jsToLower
      let bs := lastSlashSegment nb
      if containsSub nk nb || (!bs.isEmpty && containsSub bs nk) then
        some ⟨branch, "keyword match"⟩
      else none

/-! ## Classifier and analyzer invocations, agent stages
    (sources: `src/utils/branchAnalyzer.ts` `analyzeRequirement`,
    `src/utils/stepAnalyzer.ts` `analyzeSteps`, `src/claude.ts`
    `runClaude`, `src/steps/implement.ts`, `src/steps/review.ts`) -/

/-- The dry-run early return of `analyzeRequirement`. -/
def DRY_RUN_ANALYSIS : BranchAnalysis :=
  { DEFAULT_ANALYSIS with
      suggestedBranchName := "feature/dry-run-changes"
      shortDescription := "dry-run-changes" }

/-- `analyzeRequirement(requirement, config)`: dry-run returns before the
spawn; otherwise the classifier subprocess runs and exit code 0 yields
the parsed analysis (`parseAnalysisResponse` never returns `null`),
anything else — including a spawn error — the default analysis. -/
def analyzeRequirement (cfg : Config) (w : World) : BranchAnalysis × List Eff :=
  if cfg.dryRun then (DRY_RUN_ANALYSIS, [])
  else
    match w.claudeAnalysisOutcome with
    | .closed (some 0) out => (parseAnalysisResponse out, [.claude])
    | .closed _ _ => (DEFAULT_ANALYSIS, [.claude])
    | .spawnErr => (DEFAULT_ANALYSIS, [.claude])

/-- The dry-run `StepRecommendation` of `analyzeSteps`. -/
def DRY_RUN_STEP_RECOMMENDATION : StepRecommendation :=
  { DEFAULT_STEP_RECOMMENDATION with
      reasoning := "Dry run mode - using default configuration" }

/-- `analyzeSteps(requirement, config)`. -/
def analyzeSteps (cfg : Config) (w : World) : AdaptiveAnalysis × List Eff :=
  if cfg.dryRun then
    ({ DEFAULT_ADAPTIVE_ANALYSIS with stepRecommendation := DRY_RUN_STEP_RECOMMENDATION },
     [])
  else
    match w.claudeStepsOutcome with
    | .closed (some 0) out =>
      (if jsTrim out.data ≠ [] then parseAdaptiveResponse out
       else DEFAULT_ADAPTIVE_ANALYSIS, [.claude])
    | .closed _ _ => (DEFAULT_ADAPTIVE_ANALYSIS, [.claude])
    | .spawnErr => (DEFAULT_ADAPTIVE_ANALYSIS, [.claude])

/-- The streaming `runClaude` with its spawn effect: dry-run logs the
would-be command and resolves success before spawning. -/
def runClaudeEff (cfg : Config) (po : ProcOutcome) : CloseOutcome × List Eff :=
  if cfg.dryRun then (.result runClaudeDryRunResult, [])
  else
    match po with
    | .closed ec _ => (handleClaudeClose ec, [.claude])
    | .spawnErr => (handleClaudeSpawnError, [.claude])

/-- `stepImplement(config)`: `(await runClaude(...)).success`; `none`
when the adapter terminated the host program instead of resolving. -/
def stepImplement (cfg : Config) (po : ProcOutcome) : Option Bool × List Eff :=
  match runClaudeEff cfg po with
  | (.result r, t) => (some r.success, t)
  | (.hostExit _, t) => (none, t)

/-- `stepReview`'s result (source `stepReview`, lines computing
`noIssuesFound`); `none` when the adapter terminated the host program. -/
def stepReviewEff (cfg : Config) (po : ProcOutcome) : Option ReviewResult × List Eff :=
  match runClaudeEff cfg po with
  | (.result r, t) => (some (stepReviewResult r), t)
  | (.hostExit _, t) => (none, t)

/-! ## Branch management stage
    (source: `src/steps/branchManagement.ts`, `stepBranchManagement`) -/

/-- Source `BranchResult`. -/
structure BranchResult where
  success : Bool
  branchCreated : Bool
  branchName : String
  analysis : Option BranchAnalysis
  adaptiveAnalysis : Option AdaptiveAnalysis
deriving Repr

/-- `createResult(...)`: every path of the stage reports `success: true`. -/
def createResult (branchName : String) (analysis : Option BranchAnalysis)
    (branchCreated : Bool) (adaptiveAnalysis : Option AdaptiveAnalysis) : BranchResult :=
  { success := true, branchCreated := branchCreated, branchName := branchName,
    analysis := analysis, adaptiveAnalysis := adaptiveAnalysis }

/-- The warnings logged for similar-branch conflicts. -/
def conflictWarnings (conflicts : List BranchConflict) : List Eff :=
  if conflicts.isEmpty then []
  else
    [.warn "Potential conflicting branches detected:"] ++
    conflicts.map (fun c => .warn ("  - " ++ c.branchName ++ " (" ++ c.similarity ++ ")")) ++
    [.warn "Consider checking these branches before proceeding"]

/-- The `while (branchExists(branchName))` loop with its effect trace;
each check spawns the two git queries of `branchExists`. -/
def collisionLoop (w : World) (pre desc : String) :
    Nat → String → Nat → String × List Eff
  | 0, name, _ => (name, [])
  | fuel + 1, name, counter =>
    let chk := branchExists w name
    if chk.1 then
      let r := collisionLoop w pre desc fuel
        (numberedBranchName pre desc counter) (counter + 1)
      (r.1, chk.2 ++ r.2)
    else (name, chk.2)

/-- The unique branch name settled on by the stage.  The fuel
`existingBranches.length + 1` is exactly the bound under which the
source's `while` loop is shown to terminate (`branch_collision_resolution`);
with that much fuel the loop has already stopped at the first free name. -/
def resolveUniqueBranch (w : World) (analysis : BranchAnalysis) : String × List Eff :=
  collisionLoop w analysis.branchPrefix analysis.shortDescription
    ((existingBranches w).length + 1) analysis.suggestedBranchName 1

/-- `stepBranchManagement(config)` with its effect trace. -/
def stepBranchManagement (cfg : Config) (w : World) : BranchResult × List Eff :=
  let adaptiveRes : Option AdaptiveAnalysis × List Eff :=
    if cfg.adaptiveExecution then
      let r := analyzeSteps cfg w
      (some r.1, r.2)
    else (none, [])
  if cfg.skipBranchManagement then
    (createResult "" none false adaptiveRes.1, adaptiveRes.2)
  else
    let gs := getGitState w
    if !gs.1.isMainBranch then
      (createResult gs.1.currentBranch none false adaptiveRes.1, adaptiveRes.2 ++ gs.2)
    else
      let ar := analyzeRequirement cfg w
      if ar.1.isTrivial then
        (createResult gs.1.currentBranch (some ar.1) false adaptiveRes.1,
         adaptiveRes.2 ++ gs.2 ++ ar.2)
      else
        let conflicts := findSimilarBranches ar.1.shortDescription gs.1.remoteBranches
        let cw := conflictWarnings conflicts
        let rb := resolveUniqueBranch w ar.1
        if cfg.dryRun then
          (createResult rb.1 (some ar.1) false adaptiveRes.1,
           adaptiveRes.2 ++ gs.2 ++ ar.2 ++ cw ++ rb.2)
        else
          let cb := createBranch w rb.1
          if cb.1 then
            (createResult rb.1 (some ar.1) true adaptiveRes.1,
             adaptiveRes.2 ++ gs.2 ++ ar.2 ++ cw ++ rb.2 ++ cb.2)
          else
            (createResult gs.1.currentBranch (some ar.1) false adaptiveRes.1,
             adaptiveRes.2 ++ gs.2 ++ ar.2 ++ cw ++ rb.2 ++ cb.2 ++
               [.warn ("Failed to create branch '" ++ rb.1 ++
                 "' - continuing on current branch")])

lemma claude_not_mem_getGitState (w : World) : Eff.claude ∉ (getGitState w).2 := by
  simp only [getGitState, getCurrentBranch, hasUncommittedChanges, getRemoteBranches,
    execGit]
  split <;> split <;> simp

lemma claude_not_mem_branchExists (w : World) (name : String) :
    Eff.claude ∉ (branchExists w name).2 := by
  simp only [branchExists, getRemoteBranches, execGit]
  split <;> simp

lemma claude_not_mem_collisionLoop (w : World) (pre desc : String) :
    ∀ (fuel : Nat) (name : String) (counter : Nat),
      Eff.claude ∉ (collisionLoop w pre desc fuel name counter).2 := by
  intro fuel
  induction fuel with
  | zero => intro name counter; simp [collisionLoop]
  | succ f ih =>
    intro name counter
    rw [collisionLoop]
    split
    · intro hmem
      rcases List.mem_append.mp hmem with h | h
      · exact claude_not_mem_branchExists w name h
      · exact ih _ _ h
    · exact claude_not_mem_branchExists w name

lemma claude_not_mem_conflictWarnings (conflicts : List BranchConflict) :
    Eff.claude ∉ conflictWarnings conflicts := by
  simp only [conflictWarnings]
  split
  · simp
  · intro hmem
    rcases List.mem_append.mp hmem with h | h
    · rcases List.mem_append.mp h with h' | h'
      · simp at h'
      · rcases List.mem_map.mp h' with ⟨c, _, hc⟩
        cases hc
    · simp at h

lemma claude_not_mem_createBranch (w : World) (name : String) :
    Eff.claude ∉ (createBranch w name).2 := by
  simp only [createBranch]
  split <;> simp

/-- Every path of `stepBranchManagement` returns through `createResult`,
hence reports success. -/
lemma stepBranchManagement_success (cfg : Config) (w : World) :
    (stepBranchManagement cfg w).1.success = true := by
  unfold stepBranchManagement
  dsimp only
  repeat' split
  all_goals rfl

lemma claude_not_mem_resolveUniqueBranch (w : World) (a : BranchAnalysis) :
    Eff.claude ∉ (resolveUniqueBranch w a).2 :=
  claude_not_mem_collisionLoop w _ _ _ _ _

lemma claude_not_mem_stepBranchManagement (cfg : Config) (w : World)
    (h : cfg.dryRun = true) : Eff.claude ∉ (stepBranchManagement cfg w).2 := by
  have hads : Eff.claude ∉ (analyzeSteps cfg w).2 := by simp [analyzeSteps, h]
  have har : (analyzeRequirement cfg w).2 = ([] : List Eff) := by
    simp [analyzeRequirement, h]
  intro hmem
  unfold stepBranchManagement at hmem
  dsimp only at hmem
  repeat' split at hmem
  all_goals simp_all [List.mem_append, claude_not_mem_getGitState,
    claude_not_mem_conflictWarnings, claude_not_mem_resolveUniqueBranch,
    claude_not_mem_createBranch]

lemma branchExists_fst (w : World) (name : String) :
    (branchExists w name).1 = true ↔ name ∈ existingBranches w := by
  simp [branchExists, existingBranches, localBranchList, List.elem_iff,
    List.mem_append, execGit]

lemma collisionLoop_fst (w : World) (pre desc : String) :
    ∀ (fuel : Nat) (name : String) (counter : Nat),
      (collisionLoop w pre desc fuel name counter).1 =
        resolveBranchName (existingBranches w) pre desc fuel name counter := by
  intro fuel
  induction fuel with
  | zero => intro name counter; rfl
  | succ f ih =>
    intro name counter
    rw [collisionLoop, resolveBranchName]
    dsimp only
    by_cases hmem : name ∈ existingBranches w
    · rw [if_pos ((branchExists_fst w name).mpr hmem), if_pos hmem]
      exact ih _ _
    · rw [if_neg (fun hc => hmem ((branchExists_fst w name).mp hc)), if_neg hmem]

/-- The name `stepBranchManagement` settles on coincides with the
fuel-free collision resolution against the stage's existing-branch set. -/
lemma resolveUniqueBranch_fst (w : World) (a : BranchAnalysis) :
    (resolveUniqueBranch w a).1 =
      uniqueBranchName (existingBranches w) a.branchPrefix a.shortDescription
        a.suggestedBranchName :=
  collisionLoop_fst w _ _ _ _ _

/-- C6: for every finite set of existing local and remote branch names,
the collision-avoidance loop of `stepBranchManagement` settles on a name
outside that set; the loop terminates — `existing.length + 1` existence
checks always suffice, and more fuel never changes the answer — and the
settled name is either the original suggestion or the base name with a
numeric suffix `-c`, `c ≥ 1`. -/
theorem branch_collision_resolution (existing : List String)
    (pre desc suggested : String) :
    uniqueBranchName existing pre desc suggested ∉ existing ∧
    (∀ fuel, existing.length + 1 ≤ fuel →
      resolveBranchName existing pre desc fuel suggested 1 =
        uniqueBranchName existing pre desc suggested) ∧
    (uniqueBranchName existing pre desc suggested = suggested ∨
      ∃ c, 1 ≤ c ∧ uniqueBranchName existing pre desc suggested =
        numberedBranchName pre desc c) ∧
    (∀ (w : World) (a : BranchAnalysis),
      (resolveUniqueBranch w a).1 ∉ existingBranches w) := by
  have hfresh := uniqueBranchName_fresh existing pre desc suggested
  refine ⟨hfresh, ?_, resolveBranchName_shape existing pre desc _ _ _, ?_⟩
  · intro fuel hfuel
    have hextra : fuel = (existing.length + 1) + (fuel - (existing.length + 1)) := by omega
    rw [hextra]
    exact resolveBranchName_stable existing pre desc (existing.length + 1) suggested 1
      hfresh _
  · intro w a
    rw [resolveUniqueBranch_fst]
    exact uniqueBranchName_fresh _ _ _ _

theorem branch_collision_resolution_witness :
    uniqueBranchName ["feature/x", "feature/x-1", "feature/x-2"] "feature" "x"
        "feature/x" = "feature/x-3" ∧
    "feature/x-3" ∉ ["feature/x", "feature/x-1", "feature/x-2"] ∧
    (["feature/x", "feature/x-1", "feature/x-2"] : List String).length + 1 ≤ 5 ∧
    resolveBranchName ["feature/x", "feature/x-1", "feature/x-2"] "feature" "x" 5
        "feature/x" 1 = "feature/x-3" := by
  have h := branch_collision_resolution ["feature/x", "feature/x-1", "feature/x-2"]
    "feature" "x" "feature/x"
  have heval : uniqueBranchName ["feature/x", "feature/x-1", "feature/x-2"] "feature" "x"
      "feature/x" = "feature/x-3" := by decide
  refine ⟨heval, ?_, by decide, ?_⟩
  · rw [← heval]; exact h.1
  · rw [h.2.1 5 (by decide)]; exact heval

/-- C8 counterexample inputs: dry-run on, branch management not skipped. -/
def dryRunDemoConfig : Config :=
  { requirement := "add feature", reviewIterations := 2, dryRun := true,
    skipTests := false, skipPush := false, skipBranchManagement := false,
    dangerouslySkipPermissions := false, allowedTools := some "Edit,Read,Bash",
    logFile := none, adaptiveExecution := false }

/-- C8 counterexample world: every git query prints `main`. -/
def demoWorld : World :=
  { gitRun := fun _ => "main", checkoutOk := fun _ => false,
    claudeAnalysisOutcome := .closed (some 0) "",
    claudeStepsOutcome := .closed (some 0) "" }

/-- C8 counterexample: with the dry-run flag set, the branch-management
stage still spawns real external git processes (`execGit` has no dry-run
guard), so "no stage ever spawns a real external process" fails. -/
theorem dry_run_spawns_git_counterexample :
    dryRunDemoConfig.dryRun = true ∧
    Eff.git "symbolic-ref --short HEAD" ∈
      (stepBranchManagement dryRunDemoConfig demoWorld).2 := by
  refine ⟨rfl, by decide⟩

/-- C8 (amended): with the dry-run flag set, no stage ever spawns the
external *agent* process — the agent adapter, the branch classifier and
the adaptive step analyzer each return a synthetic successful result
before reaching their spawn call — and every stage still reports
success; read-only git queries, however, do still run. -/
theorem dry_run_no_agent_spawn (cfg : Config) (w : World) (po : ProcOutcome)
    (h : cfg.dryRun = true) :
    runClaudeEff cfg po = (.result ⟨true, ""⟩, []) ∧
    stepImplement cfg po = (some true, []) ∧
    (stepReviewEff cfg po).1 = some ⟨true, false⟩ ∧
    analyzeRequirement cfg w = (DRY_RUN_ANALYSIS, []) ∧
    analyzeSteps cfg w =
      ({ DEFAULT_ADAPTIVE_ANALYSIS with
          stepRecommendation := DRY_RUN_STEP_RECOMMENDATION }, []) ∧
    Eff.claude ∉ (stepBranchManagement cfg w).2 ∧
    (stepBranchManagement cfg w).1.success = true := by
  have hrc : runClaudeEff cfg po = (.result ⟨true, ""⟩, []) := by
    simp [runClaudeEff, h, runClaudeDryRunResult]
  refine ⟨hrc, ?_, ?_, ?_, ?_, ?_, stepBranchManagement_success cfg w⟩
  · simp [stepImplement, hrc]
  · simp [stepReviewEff, hrc, stepReviewResult]
    decide
  · simp [analyzeRequirement, h]
  · simp [analyzeSteps, h]
  · exact claude_not_mem_stepBranchManagement cfg w h

theorem dry_run_no_agent_spawn_witness :
    dryRunDemoConfig.dryRun = true ∧
    Eff.claude ∉ (stepBranchManagement dryRunDemoConfig demoWorld).2 ∧
    (stepBranchManagement dryRunDemoConfig demoWorld).1.success = true := by
  have h := dry_run_no_agent_spawn dryRunDemoConfig demoWorld
    (.closed (some 0) "") rfl
  exact ⟨rfl, h.2.2.2.2.2.1, h.2.2.2.2.2.2⟩

/-- C9: when branch creation fails (`createBranch` returns `false`) on
the create path of the stage, `stepBranchManagement` logs the warning
and still returns a result with `success = true` carrying the current
branch name and `branchCreated = false`, so the pipeline continues on
the current branch instead of aborting. -/
theorem branch_create_failure_continues (cfg : Config) (w : World)
    (hdry : cfg.dryRun = false) (hskip : cfg.skipBranchManagement = false)
    (hmain : (getGitState w).1.isMainBranch = true)
    (htriv : (analyzeRequirement cfg w).1.isTrivial = false)
    (hfail : (createBranch w
      (resolveUniqueBranch w (analyzeRequirement cfg w).1).1).1 = false) :
    (stepBranchManagement cfg w).1.success = true ∧
    (stepBranchManagement cfg w).1.branchName = (getGitState w).1.currentBranch ∧
    (stepBranchManagement cfg w).1.branchCreated = false ∧
    Eff.warn ("Failed to create branch '" ++
        (resolveUniqueBranch w (analyzeRequirement cfg w).1).1 ++
        "' - continuing on current branch") ∈ (stepBranchManagement cfg w).2 := by
  refine ⟨?_, ?_, ?_, ?_⟩ <;>
    simp [stepBranchManagement, createResult, hskip, hmain, htriv, hdry, hfail]

/-- C9 witness inputs: a live (non-dry-run) configuration. -/
def liveDemoConfig : Config :=
  { requirement := "add feature", reviewIterations := 2, dryRun := false,
    skipTests := false, skipPush := false, skipBranchManagement := false,
    dangerouslySkipPermissions := false, allowedTools := some "Edit,Read,Bash",
    logFile := none, adaptiveExecution := false }

/-- C9 witness world: on `main`, classifier call fails (default analysis),
`git checkout -b` always fails. -/
def demoFailWorld : World :=
  { gitRun := fun _ => "main", checkoutOk := fun _ => false,
    claudeAnalysisOutcome := .closed (some 1) "",
    claudeStepsOutcome := .closed (some 1) "" }

theorem branch_create_failure_continues_witness :
    (stepBranchManagement liveDemoConfig demoFailWorld).1.success = true ∧
    (stepBranchManagement liveDemoConfig demoFailWorld).1.branchName = "main" ∧
    (stepBranchManagement liveDemoConfig demoFailWorld).1.branchCreated = false ∧
    Eff.warn "Failed to create branch 'feature/changes' - continuing on current branch"
      ∈ (stepBranchManagement liveDemoConfig demoFailWorld).2 := by
  have h := branch_create_failure_continues liveDemoConfig demoFailWorld
    rfl rfl (by decide) (by decide) (by decide)
  refine ⟨h.1, ?_, h.2.2.1, ?_⟩
  · rw [h.2.1]
    decide
  · have hm := h.2.2.2
    rw [show (resolveUniqueBranch demoFailWorld
        (analyzeRequirement liveDemoConfig demoFailWorld).1).1 = "feature/changes"
      from by decide] at hm
    exact hm

end SE
